import Mathlib

/-!
# Verification of mlpack excerpt: distributions, Linear layer, AdaBoost binding

Shallow embedding of the code in this repository, over exact rational
arithmetic (ℚ stands for the C++ floating-point element type; every formula
is the exact real-number formula the code computes).

Sections:
* `LinearType` — embedding of `linear_impl.hpp` (Forward, Backward, Gradient,
  SetWeights buffer aliasing).
* `AdaBoostBinding` — embedding of `adaboost_predict_proba_main.cpp`.
* `DiscreteDistribution`, `GaussianDistribution`, `DiagonalGaussianDistribution`,
  `GammaDistribution` — the distribution classes exercised by
  `distribution_test.cpp`; their implementations are not part of this excerpt,
  so they are modelled from the spec, with constants fixed by the tests.
* `MultiheadAttention` — the layer exercised by `multihead_attention.cpp`;
  modelled from the spec at the level of matrix shapes and the forward
  pipeline.
-/

namespace LinearType

/-- Embedding of `output.each_col() += bias` from linear_impl.hpp: add the bias vector to
every column of the matrix. -/
def eachColAdd {m n : ℕ} (M : Matrix (Fin m) (Fin n) ℚ) (b : Fin m → ℚ) :
    Matrix (Fin m) (Fin n) ℚ :=
  Matrix.of fun r c => M r c + b r

/-- Embedding of `LinearType::Forward` from linear_impl.hpp:
`output = weight * input; output.each_col() += bias;`. -/
def Forward {o i b : ℕ} (weight : Matrix (Fin o) (Fin i) ℚ) (bias : Fin o → ℚ)
    (input : Matrix (Fin i) (Fin b) ℚ) : Matrix (Fin o) (Fin b) ℚ :=
  eachColAdd (weight * input) bias

/-- Embedding of `LinearType::Backward` from linear_impl.hpp: `g = weight.t() * gy;`. -/
def Backward {o i b : ℕ} (weight : Matrix (Fin o) (Fin i) ℚ)
    (gy : Matrix (Fin o) (Fin b) ℚ) : Matrix (Fin i) (Fin b) ℚ :=
  weight.transpose * gy

/-- A flat index `k < o * i` into a column-major `o × i` matrix: its row. -/
def rowIdx (o : ℕ) {i : ℕ} (k : ℕ) (hk : k < o * i) : Fin o :=
  ⟨k % o, Nat.mod_lt _ (by rcases Nat.eq_zero_or_pos o with h | h
                           · subst h; simp at hk
                           · exact h)⟩

/-- A flat index `k < o * i` into a column-major `o × i` matrix: its column. -/
def colIdx {o : ℕ} (i : ℕ) (k : ℕ) (hk : k < o * i) : Fin i :=
  ⟨k / o, by
    have ho : 0 < o := by
      rcases Nat.eq_zero_or_pos o with h | h
      · subst h; simp at hk
      · exact h
    exact (Nat.div_lt_iff_lt_mul ho).mpr (by rw [Nat.mul_comm i o]; exact hk)⟩

/-- Embedding of `LinearType::Gradient` from linear_impl.hpp:
```
gradient.submat(0, 0, weight.n_elem - 1, 0) = arma::vectorise(error * input.t());
gradient.submat(weight.n_elem, 0, gradient.n_elem - 1, 0) = arma::sum(error, 1);
regularizer.Evaluate(weights, gradient);
```
The gradient buffer is a column of `o*i + o` entries (the layer's parameter
count); `regEval` is the regularizer's `Evaluate(parameter, gradient)`,
returning the in-place-updated gradient buffer; `g0` is the buffer's prior
content. -/
def Gradient {o i b : ℕ}
    (regEval : (Fin (o * i + o) → ℚ) → (Fin (o * i + o) → ℚ) →
      (Fin (o * i + o) → ℚ))
    (weights : Fin (o * i + o) → ℚ)
    (input : Matrix (Fin i) (Fin b) ℚ) (error : Matrix (Fin o) (Fin b) ℚ)
    (g0 : Fin (o * i + o) → ℚ) : Fin (o * i + o) → ℚ :=
  let g1 : Fin (o * i + o) → ℚ := fun k =>
    if hk : (k : ℕ) < o * i then
      (error * input.transpose) (rowIdx o k hk) (colIdx i k hk)
    else g0 k
  let g2 : Fin (o * i + o) → ℚ := fun k =>
    if hk : o * i ≤ (k : ℕ) then
      ∑ c, error ⟨(k : ℕ) - o * i, by have := k.isLt; omega⟩ c
    else g1 k
  regEval weights g2

/-- Embedding of `LinearType::SetWeights`:
`weights = OutputType(weightsPtr, outSize * inSize + outSize, 1, false, false)`
— the flat non-owning parameter view over the caller's buffer `p`, of exactly
`o*i + o` entries. -/
def weightsAlias (o i : ℕ) (p : ℕ → ℚ) : Fin (o * i + o) → ℚ := fun k =>
  p (k : ℕ)

/-- Embedding of `weight = OutputType(weightsPtr, outSize, inSize, false, false)` — the
column-major non-owning `o × i` matrix view of the first `o*i` buffer
entries. -/
def weightAlias (o i : ℕ) (p : ℕ → ℚ) : Matrix (Fin o) (Fin i) ℚ :=
  Matrix.of fun r c => p ((r : ℕ) + o * (c : ℕ))

/-- Embedding of `bias = OutputType(weightsPtr + weight.n_elem, outSize, 1, false, false)`
— the non-owning view of the `o` buffer entries following the first `o*i`. -/
def biasAlias (o i : ℕ) (p : ℕ → ℚ) : Fin o → ℚ := fun r => p (o * i + (r : ℕ))

/-- Behaviour of `Forward` after `SetWeights(p)`: the layer reads its parameters through
the non-owning views into `p`. -/
def ForwardWithBuffer (o : ℕ) {i b : ℕ} (p : ℕ → ℚ)
    (input : Matrix (Fin i) (Fin b) ℚ) : Matrix (Fin o) (Fin b) ℚ :=
  Forward (weightAlias o i p) (biasAlias o i p) input

/-- Behaviour of `Backward` after `SetWeights(p)`. -/
def BackwardWithBuffer (o i : ℕ) {b : ℕ} (p : ℕ → ℚ)
    (gy : Matrix (Fin o) (Fin b) ℚ) : Matrix (Fin i) (Fin b) ℚ :=
  Backward (weightAlias o i p) gy

/-- Behaviour of `Gradient` after `SetWeights(p)`: the regularizer receives the flat
parameter view into `p`. -/
def GradientWithBuffer (o i : ℕ) {b : ℕ}
    (regEval : (Fin (o * i + o) → ℚ) → (Fin (o * i + o) → ℚ) →
      (Fin (o * i + o) → ℚ))
    (p : ℕ → ℚ)
    (input : Matrix (Fin i) (Fin b) ℚ) (error : Matrix (Fin o) (Fin b) ℚ)
    (g0 : Fin (o * i + o) → ℚ) : Fin (o * i + o) → ℚ :=
  Gradient regEval (weightsAlias o i p) input error g0

end LinearType

/-- An arma-style dense matrix with run-time shape (entries in ℚ for the C++
`double`; reads outside the shape return the function's value there, as the
shape is advisory, like a non-owning pointer view). -/
structure ArmaMat where
  nRows : ℕ
  nCols : ℕ
  entry : ℕ → ℕ → ℚ

namespace AdaBoostBinding

/-- Modelled from the spec: `AdaBoostModel` (its `Classify` implementation is
not part of this excerpt). It owns a trained ensemble, read-only at prediction
time, with a trained dimensionality; `Classify` is abstracted as the function
from the test matrix to the probability matrix it produces. -/
structure AdaBoostModel where
  Dimensionality : ℕ
  Classify : ArmaMat → ArmaMat

/-- The message printed by `Log::Fatal` on a dimensionality mismatch in
adaboost_predict_proba_main.cpp. -/
def fatalMessage : String :=
  "Test data dimensionality must be the same as the model dimensionality!"

/-- Embedding of `BINDING_FUNCTION` of adaboost_predict_proba_main.cpp:
if `testingData.n_rows != m->Dimensionality()` then `Log::Fatal` aborts
(modelled as `Except.error`; no classification is run and the probabilities
output parameter is not written); otherwise `m->Classify(...)` runs and the
probabilities output parameter is set to its probability matrix. -/
def BINDING_FUNCTION (m : AdaBoostModel) (testingData : ArmaMat) :
    Except String ArmaMat :=
  if testingData.nRows ≠ m.Dimensionality then
    Except.error fatalMessage
  else
    Except.ok (m.Classify testingData)

/-- A concrete model for exercising the binding: dimensionality 2, with an
arbitrary concrete classifier. -/
def exampleModel : AdaBoostModel :=
  ⟨2, fun t => ⟨3, t.nCols, fun r c => t.entry 0 c + r⟩⟩

/-- A test matrix with 3 rows (mismatching `exampleModel`). -/
def badTest : ArmaMat := ⟨3, 4, fun r c => r + c⟩

/-- A test matrix with 2 rows (matching `exampleModel`). -/
def goodTest : ArmaMat := ⟨2, 4, fun r c => r + c⟩

end AdaBoostBinding

/-- Modelled from the spec: the `DiscreteDistribution` class (its
implementation is not part of this excerpt; only its tests are). It holds one
categorical probability vector per dimension, fixed at construction. -/
structure DiscreteDistribution where
  probabilities : List (List ℚ)

namespace DiscreteDistribution

/-- Number of dimensions of the distribution. -/
def Dimensionality (dd : DiscreteDistribution) : ℕ := dd.probabilities.length

/-- Modelled from the spec: the `DiscreteDistribution(numObservations)`
constructor — one dimension with `numObservations` equally likely outcomes. -/
def ofNumObservations (numObservations : ℕ) : DiscreteDistribution :=
  ⟨[List.replicate numObservations ((1 : ℚ) / numObservations)]⟩

/-- Modelled from the spec (constants fixed by the tests): probability of a
vector observation under the stored per-dimension vectors `ps`: the product
over dimensions of that dimension's categorical probability of the observed
symbol, each stored vector normalized by its own sum (the tests require
`Probability("0 0 0") == 0.0083333` for stored vectors summing to
1, 0.9, 1). -/
def probOf (ps : List (List ℚ)) (obs : List ℕ) : ℚ :=
  ((ps.zip obs).map fun pr => pr.1.getD pr.2 0 / pr.1.sum).prod

/-- Embedding of `DiscreteDistribution::Probability(observation)`. -/
def Probability (dd : DiscreteDistribution) (obs : List ℕ) : ℚ :=
  probOf dd.probabilities obs

/-- The full support of per-dimension vectors `ps`: every observation vector
whose symbol in dimension `d` is below that dimension's cardinality. -/
def support : List (List ℚ) → List (List ℕ)
  | [] => [[]]
  | p :: rest =>
      (((List.range p.length).map fun o =>
        (support rest).map fun t => o :: t)).flatten

/-- The sum of `Probability` over every observation in the full support. -/
def supportSum (dd : DiscreteDistribution) : ℚ :=
  ((support dd.probabilities).map (Probability dd)).sum

/-- The multi-dimensional distribution of `MultiDiscreteDistributionTrainTest`:
constructed from explicit per-dimension vectors
`0.1 0.3 0.6`, `0.3 0.3 0.3`, `0.25 0.25 0.5` (the second does not sum
to 1). -/
def mdTestDist : DiscreteDistribution :=
  ⟨[[1/10, 3/10, 6/10], [3/10, 3/10, 3/10], [1/4, 1/4, 1/2]]⟩

/-- A degenerate distribution whose single stored vector is all zero (its sum
is 0), as can be produced through the `Probabilities()` setter. -/
def zeroDist : DiscreteDistribution := ⟨[[0]]⟩

end DiscreteDistribution

/-- C4: `Gradient(input, error, gradient)` writes the vectorised (column-major)
outer product `error * input.t()` into the first `o*i` entries of the gradient
buffer, writes the row-sums of `error` into the following `o` entries (the
bias gradient), and then applies the regularizer term in place to the whole
buffer. -/
theorem LinearType.Gradient_layout {o i b : ℕ}
    (regEval : (Fin (o * i + o) → ℚ) → (Fin (o * i + o) → ℚ) →
      (Fin (o * i + o) → ℚ))
    (weights : Fin (o * i + o) → ℚ)
    (input : Matrix (Fin i) (Fin b) ℚ) (error : Matrix (Fin o) (Fin b) ℚ)
    (g0 : Fin (o * i + o) → ℚ) :
    LinearType.Gradient regEval weights input error g0
      = regEval weights (fun k =>
          if hk : (k : ℕ) < o * i then
            ∑ c, error (LinearType.rowIdx o k hk) c *
              input (LinearType.colIdx i k hk) c
          else
            ∑ c, error ⟨(k : ℕ) - o * i, by have := k.isLt; omega⟩ c) := by
  simp only [LinearType.Gradient]
  refine congrArg (regEval weights) (funext fun k => ?_)
  by_cases hk : (k : ℕ) < o * i
  · have hk2 : ¬ (o * i ≤ (k : ℕ)) := by omega
    simp [hk, hk2, Matrix.mul_apply, Matrix.transpose_apply]
  · have hk2 : o * i ≤ (k : ℕ) := by omega
    simp [hk, hk2]

/-- C10: after `SetWeights(p)` the layer's parameters are non-owning views
into the caller's buffer `p`: the flat parameter view has exactly `o*i + o`
entries, each aliasing either the column-major weight view (first `o*i`
entries) or the bias view (next `o` entries); `Forward` and `Backward` read
the parameters directly from the buffer positions `r + o*c` (weight) and
`o*i + r` (bias), `Gradient` hands the regularizer the flat view of the
buffer, and a write through the buffer is observed by the views. -/
theorem LinearType.SetWeights_nonOwningViews {o i b : ℕ} (p : ℕ → ℚ)
    (input : Matrix (Fin i) (Fin b) ℚ) (gy : Matrix (Fin o) (Fin b) ℚ)
    (error : Matrix (Fin o) (Fin b) ℚ)
    (regEval : (Fin (o * i + o) → ℚ) → (Fin (o * i + o) → ℚ) →
      (Fin (o * i + o) → ℚ))
    (g0 : Fin (o * i + o) → ℚ) :
    (∀ k : Fin (o * i + o),
       LinearType.weightsAlias o i p k =
         if hk : (k : ℕ) < o * i then
           LinearType.weightAlias o i p (LinearType.rowIdx o k hk)
             (LinearType.colIdx i k hk)
         else
           LinearType.biasAlias o i p
             ⟨(k : ℕ) - o * i, by have := k.isLt; omega⟩)
    ∧ (∀ (r : Fin o) (c : Fin b),
        LinearType.ForwardWithBuffer o p input r c
          = (∑ j : Fin i, p ((r : ℕ) + o * (j : ℕ)) * input j c)
              + p (o * i + (r : ℕ)))
    ∧ (∀ (r : Fin i) (c : Fin b),
        LinearType.BackwardWithBuffer o i p gy r c
          = ∑ j : Fin o, p ((j : ℕ) + o * (r : ℕ)) * gy j c)
    ∧ (LinearType.GradientWithBuffer o i regEval p input error g0
        = LinearType.Gradient regEval (fun k => p (k : ℕ)) input error g0)
    ∧ (∀ (k : Fin (o * i)) (v : ℚ),
        LinearType.weightAlias o i (Function.update p (k : ℕ) v)
          (LinearType.rowIdx o k k.isLt) (LinearType.colIdx i k k.isLt) = v)
    ∧ (∀ (r : Fin o) (v : ℚ),
        LinearType.biasAlias o i
          (Function.update p (o * i + (r : ℕ)) v) r = v) := by
  refine ⟨?_, ?_, ?_, rfl, ?_, ?_⟩
  · intro k
    by_cases hk : (k : ℕ) < o * i
    · simp only [hk, dif_pos, LinearType.weightsAlias, LinearType.weightAlias,
        LinearType.rowIdx, LinearType.colIdx, Matrix.of_apply]
      rw [Nat.mod_add_div]
    · simp only [hk, dif_neg, not_false_iff, LinearType.weightsAlias,
        LinearType.biasAlias]
      rw [Nat.add_sub_cancel' (by omega)]
  · intro r c
    simp [LinearType.ForwardWithBuffer, LinearType.Forward,
      LinearType.eachColAdd, LinearType.weightAlias, LinearType.biasAlias,
      Matrix.mul_apply]
  · intro r c
    simp [LinearType.BackwardWithBuffer, LinearType.Backward,
      LinearType.weightAlias, Matrix.mul_apply, Matrix.transpose_apply]
  · intro k v
    simp only [LinearType.weightAlias, LinearType.rowIdx, LinearType.colIdx,
      Matrix.of_apply]
    rw [Nat.mod_add_div]
    simp
  · intro r v
    simp [LinearType.biasAlias]

namespace MultiheadAttention

/-- Product `A * B` on arma-style matrices (summation over `A`'s column count). -/
def mulMat (A B : ArmaMat) : ArmaMat :=
  ⟨A.nRows, B.nCols, fun r c => ∑ k ∈ Finset.range A.nCols,
    A.entry r k * B.entry k c⟩

/-- Elementwise `A + B`. -/
def addMat (A B : ArmaMat) : ArmaMat :=
  ⟨A.nRows, A.nCols, fun r c => A.entry r c + B.entry r c⟩

/-- Scalar multiple `s * A`. -/
def scaleMat (s : ℚ) (A : ArmaMat) : ArmaMat :=
  ⟨A.nRows, A.nCols, fun r c => s * A.entry r c⟩

/-- Transpose `A.t()`. -/
def transposeMat (A : ArmaMat) : ArmaMat :=
  ⟨A.nCols, A.nRows, fun r c => A.entry c r⟩

/-- The `nr` rows of `A` starting at row `r0`. -/
def submatRows (A : ArmaMat) (r0 nr : ℕ) : ArmaMat :=
  ⟨nr, A.nCols, fun r c => A.entry (r0 + r) c⟩

/-- Add a column vector to every column. -/
def eachColAddVec (A : ArmaMat) (b : ℕ → ℚ) : ArmaMat :=
  ⟨A.nRows, A.nCols, fun r c => A.entry r c + b r⟩

/-- Add a `1 × n` row mask to every row (key padding is applied uniformly
across target positions and heads). -/
def addRowBroadcast (A mask : ArmaMat) : ArmaMat :=
  ⟨A.nRows, A.nCols, fun r c => A.entry r c + mask.entry 0 c⟩

/-- Softmax of each row across the columns (the source axis), with the
exponential abstracted as `ex` (it is not a rational function; the shape
and normalization structure do not depend on it). -/
def rowSoftmax (ex : ℚ → ℚ) (A : ArmaMat) : ArmaMat :=
  ⟨A.nRows, A.nCols, fun r c =>
    ex (A.entry r c) / ∑ k ∈ Finset.range A.nCols, ex (A.entry r k)⟩

/-- Stack `A` on top of `B`. -/
def vconcat (A B : ArmaMat) : ArmaMat :=
  ⟨A.nRows + B.nRows, A.nCols, fun r c =>
    if r < A.nRows then A.entry r c else B.entry (r - A.nRows) c⟩

/-- The `embedDim × len` matrix read column-major out of column `b` of
`input`, starting at row `offset` (each sequence position's embedding is
contiguous). -/
def colSegment (input : ArmaMat) (offset embedDim len b : ℕ) : ArmaMat :=
  ⟨embedDim, len, fun e t => input.entry (offset + embedDim * t + e) b⟩

/-- Modelled from the spec: the MultiheadAttention layer's projection
parameters (the layer implementation is not in this excerpt) — query, key,
value and output projections, each an `embedDim × embedDim` matrix plus a
bias vector, sliced out of the layer's flat weight buffer by `SetWeights`. -/
structure MHAParams where
  wq : ArmaMat
  bq : ℕ → ℚ
  wk : ArmaMat
  bk : ℕ → ℚ
  wv : ArmaMat
  bv : ℕ → ℚ
  wo : ArmaMat
  bo : ℕ → ℚ

/-- Rows `h*headDim .. (h+1)*headDim - 1` of a projected matrix: head `h`'s
subspace. -/
def headSlice (M : ArmaMat) (h headDim : ℕ) : ArmaMat :=
  submatRows M (h * headDim) headDim

/-- Stack the per-head outputs `f 0, …, f n` vertically. -/
def concatHeads (f : ℕ → ArmaMat) : ℕ → ArmaMat
  | 0 => f 0
  | n + 1 => vconcat (concatHeads f n) (f (n + 1))

/-- Modelled from the spec: `MultiheadAttention::Forward` (the layer
implementation is not in this excerpt). For each batch column: split the
input block into query/key/value segments using the configured target/source
sequence lengths and embedding dimension; project each; for every head take
its `headDim = embedDim / numHeads` subspace, form scaled dot-product scores,
add the attention mask and the broadcast key-padding mask, softmax over the
source axis, and weight the values; concatenate the heads and apply the
output projection; the per-column results are flattened column-major into the
output matrix. `scale` abstracts the irrational scaling constant
`1/sqrt(headDim)` and `ex` the exponential inside softmax. -/
def Forward (embedDim numHeads tLen sLen : ℕ) (scale : ℚ) (ex : ℚ → ℚ)
    (ps : MHAParams) (attnMask keyPaddingMask : ArmaMat)
    (input : ArmaMat) : ArmaMat :=
  let headDim := embedDim / numHeads
  let perB : ℕ → ArmaMat := fun b =>
    let q := colSegment input 0 embedDim tLen b
    let k := colSegment input (embedDim * tLen) embedDim sLen b
    let v := colSegment input (embedDim * (tLen + sLen)) embedDim sLen b
    let pq := eachColAddVec (mulMat ps.wq q) ps.bq
    let pk := eachColAddVec (mulMat ps.wk k) ps.bk
    let pv := eachColAddVec (mulMat ps.wv v) ps.bv
    let headOut : ℕ → ArmaMat := fun h =>
      let qh := headSlice pq h headDim
      let kh := headSlice pk h headDim
      let vh := headSlice pv h headDim
      let scores := addRowBroadcast
        (addMat (scaleMat scale (mulMat (transposeMat qh) kh)) attnMask)
        keyPaddingMask
      mulMat vh (transposeMat (rowSoftmax ex scores))
    let attnOut := concatHeads headOut (numHeads - 1)
    eachColAddVec (mulMat ps.wo attnOut) ps.bo
  ⟨(perB 0).nRows * (perB 0).nCols, input.nCols,
   fun r b => (perB b).entry (r % (perB 0).nRows) (r / (perB 0).nRows)⟩

/-- Concrete parameters with the shapes `SetWeights` produces for
`embedDim = 4` (entries immaterial to the shape claims). -/
def exampleParams : MHAParams :=
  ⟨⟨4, 4, fun _ _ => 0⟩, fun _ => 0, ⟨4, 4, fun _ _ => 0⟩, fun _ => 0,
   ⟨4, 4, fun _ _ => 0⟩, fun _ => 0, ⟨4, 4, fun _ _ => 0⟩, fun _ => 0⟩

/-- The input block of `SimpleMultiheadAttentionTest`: `embedDim = 4`,
`tLen = sLen = 5`, `bsz = 3`, so `4 * 15 = 60` rows by 3 columns. -/
def exampleInput : ArmaMat := ⟨60, 3, fun r c => (r + c : ℚ) / 10⟩

/-- A `5 × 5` mask matrix (entries immaterial to the shape claims). -/
def exampleMask : ArmaMat := ⟨5, 5, fun _ _ => 0⟩

/-- A `1 × 5` key-padding mask. -/
def examplePadMask : ArmaMat := ⟨1, 5, fun _ _ => 0⟩

end MultiheadAttention

namespace GaussianDistribution

/-- Modelled from the spec: `GaussianDistribution::Train(data)` mean (the
implementation is not in this excerpt) — unweighted MLE, the sample mean of
the columns. -/
def TrainMean {d N : ℕ} (data : Matrix (Fin d) (Fin N) ℚ) : Fin d → ℚ :=
  fun j => (∑ s, data j s) / N

/-- Modelled from the spec: `GaussianDistribution::Train(data)` covariance —
the unbiased sample covariance (divisor `N - 1`, as the weighted-reduction
test requires for exact agreement with the weighted estimator at uniform
weights). -/
def TrainCovariance {d N : ℕ} (data : Matrix (Fin d) (Fin N) ℚ) :
    Matrix (Fin d) (Fin d) ℚ :=
  Matrix.of fun j k =>
    (∑ s, (data j s - TrainMean data j) * (data k s - TrainMean data k))
      / ((N : ℚ) - 1)

/-- Modelled from the spec: `GaussianDistribution::Train(data, weights)` mean
— the weighted mean `Σ wᵢ xᵢ / Σ wᵢ`. -/
def TrainWMean {d N : ℕ} (data : Matrix (Fin d) (Fin N) ℚ)
    (w : Fin N → ℚ) : Fin d → ℚ :=
  fun j => (∑ s, w s * data j s) / (∑ s, w s)

/-- Modelled from the spec: `GaussianDistribution::Train(data, weights)`
covariance — the bias-corrected weighted covariance with divisor
`V1 - V2/V1` where `V1 = Σ wᵢ`, `V2 = Σ wᵢ²` (the divisor is fixed exactly
by the values required in `DiagonalGaussianDistributionTrainTest`). -/
def TrainWCovariance {d N : ℕ} (data : Matrix (Fin d) (Fin N) ℚ)
    (w : Fin N → ℚ) : Matrix (Fin d) (Fin d) ℚ :=
  Matrix.of fun j k =>
    (∑ s, w s * (data j s - TrainWMean data w j)
        * (data k s - TrainWMean data w k))
      / ((∑ s, w s) - (∑ s, w s * w s) / (∑ s, w s))

/-- Full `Train(data)`: the fitted (mean, covariance) pair. -/
def Train {d N : ℕ} (data : Matrix (Fin d) (Fin N) ℚ) :
    (Fin d → ℚ) × Matrix (Fin d) (Fin d) ℚ :=
  (TrainMean data, TrainCovariance data)

/-- Full `Train(data, weights)`: the fitted (mean, covariance) pair. -/
def TrainW {d N : ℕ} (data : Matrix (Fin d) (Fin N) ℚ) (w : Fin N → ℚ) :
    (Fin d → ℚ) × Matrix (Fin d) (Fin d) ℚ :=
  (TrainWMean data w, TrainWCovariance data w)

end GaussianDistribution

namespace DiagonalGaussianDistribution

/-- Modelled from the spec: `DiagonalGaussianDistribution::Train(data)` —
sample mean and unbiased per-dimension sample variance (divisor `N - 1`,
required by `DiagonalGaussianUnbiasedEstimatorTest`). -/
def Train {d N : ℕ} (data : Matrix (Fin d) (Fin N) ℚ) :
    (Fin d → ℚ) × (Fin d → ℚ) :=
  (fun j => (∑ s, data j s) / N,
   fun j => (∑ s, (data j s - (∑ s2, data j s2) / N)
       * (data j s - (∑ s2, data j s2) / N)) / ((N : ℚ) - 1))

/-- Modelled from the spec:
`DiagonalGaussianDistribution::Train(data, weights)` — weighted mean
`Σ wᵢ xᵢ / Σ wᵢ` and bias-corrected weighted variance with divisor
`V1 - V2/V1` (both fixed exactly by the values required in
`DiagonalGaussianDistributionTrainTest`). -/
def TrainW {d N : ℕ} (data : Matrix (Fin d) (Fin N) ℚ) (w : Fin N → ℚ) :
    (Fin d → ℚ) × (Fin d → ℚ) :=
  (fun j => (∑ s, w s * data j s) / (∑ s, w s),
   fun j => (∑ s, w s * (data j s - (∑ s2, w s2 * data j s2) / (∑ s2, w s2))
       * (data j s - (∑ s2, w s2 * data j s2) / (∑ s2, w s2)))
     / ((∑ s, w s) - (∑ s, w s * w s) / (∑ s, w s)))

end DiagonalGaussianDistribution

namespace GammaDistribution

/-- Modelled from the spec: `GammaDistribution::Train(data)` (the
implementation is not in this excerpt). Per dimension it forms the sufficient
statistics — `meanx` (mean of the data), `meanLogx` (mean of the elementwise
log of the data) and `logMeanx` (log of `meanx`) — and hands them to the
iterative Newton-type solver on the digamma function, which returns the
(alpha, beta) pair. The solver is abstracted as the argument `fit
logMeanx meanLogx meanx` and the elementwise log as `lg`, since neither is in
the excerpt and both are identical deterministic steps on either training
path. -/
def Train {d N : ℕ} (fit : ℚ → ℚ → ℚ → ℚ × ℚ) (lg : ℚ → ℚ)
    (data : Matrix (Fin d) (Fin N) ℚ) : Fin d → ℚ × ℚ :=
  fun j =>
    fit (lg ((∑ s, data j s) / N))
        ((∑ s, lg (data j s)) / N)
        ((∑ s, data j s) / N)

/-- Modelled from the spec: `GammaDistribution::Train(data, probabilities)` —
the same solver applied to the probability-weighted statistics
`meanx = Σ wᵢ xᵢ / Σ wᵢ`, `meanLogx = Σ wᵢ log xᵢ / Σ wᵢ`,
`logMeanx = log meanx`. -/
def TrainW {d N : ℕ} (fit : ℚ → ℚ → ℚ → ℚ × ℚ) (lg : ℚ → ℚ)
    (data : Matrix (Fin d) (Fin N) ℚ) (w : Fin N → ℚ) : Fin d → ℚ × ℚ :=
  fun j =>
    fit (lg ((∑ s, w s * data j s) / (∑ s, w s)))
        ((∑ s, w s * lg (data j s)) / (∑ s, w s))
        ((∑ s, w s * data j s) / (∑ s, w s))

end GammaDistribution

lemma listSum_map_mul_left {α : Type} (l : List α) (f : α → ℚ) (c : ℚ) :
    (l.map fun x => c * f x).sum = c * (l.map f).sum := by
  induction l with
  | nil => simp
  | cons a tl ih => simp [ih, mul_add]

lemma listSum_range_getD (p : List ℚ) :
    ((List.range p.length).map fun o => p.getD o 0).sum = p.sum := by
  induction p with
  | nil => simp
  | cons a tl ih =>
      rw [List.length_cons, List.range_succ_eq_map, List.map_cons,
        List.map_map, List.sum_cons]
      have h2 : ((fun o => (a :: tl).getD o 0) ∘ Nat.succ)
          = fun o => tl.getD o 0 := by
        funext o; simp
      rw [h2, ih]
      simp

lemma probOf_cons (p : List ℚ) (rest : List (List ℚ)) (o : ℕ) (t : List ℕ) :
    DiscreteDistribution.probOf (p :: rest) (o :: t)
      = (p.getD o 0 / p.sum) * DiscreteDistribution.probOf rest t := by
  simp [DiscreteDistribution.probOf]

lemma probOf_support_sum (ps : List (List ℚ)) (h : ∀ p ∈ ps, p.sum ≠ 0) :
    ((DiscreteDistribution.support ps).map
      (DiscreteDistribution.probOf ps)).sum = 1 := by
  induction ps with
  | nil => simp [DiscreteDistribution.support, DiscreteDistribution.probOf]
  | cons p rest ih =>
      have hp : p.sum ≠ 0 := h p (by simp)
      have hrest : ∀ q ∈ rest, q.sum ≠ 0 := fun q hq => h q (by simp [hq])
      rw [DiscreteDistribution.support, List.map_flatten, List.sum_flatten,
        List.map_map, List.map_map]
      simp only [Function.comp_def, List.map_map]
      have hstep : ∀ o : ℕ,
          ((DiscreteDistribution.support rest).map
            (fun t => DiscreteDistribution.probOf (p :: rest) (o :: t))).sum
          = p.getD o 0 / p.sum := by
        intro o
        have h3 : (fun t => DiscreteDistribution.probOf (p :: rest) (o :: t))
            = fun t => (p.getD o 0 / p.sum) *
                DiscreteDistribution.probOf rest t := by
          funext t
          exact probOf_cons p rest o t
        rw [h3, listSum_map_mul_left, ih hrest, mul_one]
      have h4 : (fun o => ((DiscreteDistribution.support rest).map
            (fun t => DiscreteDistribution.probOf (p :: rest) (o :: t))).sum)
          = fun o => (p.sum)⁻¹ * p.getD o 0 := by
        funext o
        rw [hstep o, div_eq_mul_inv, mul_comm]
      rw [h4, listSum_map_mul_left, listSum_range_getD, inv_mul_cancel₀ hp]

lemma probOf_eq_finProd (ps : List (List ℚ)) (obs : List ℕ)
    (hlen : obs.length = ps.length) :
    DiscreteDistribution.probOf ps obs
      = ∏ d : Fin ps.length,
          ((ps.get d).getD (obs.getD (d : ℕ) 0) 0) / (ps.get d).sum := by
  induction ps generalizing obs with
  | nil => simp [DiscreteDistribution.probOf]
  | cons p rest ih =>
      match obs with
      | [] => simp at hlen
      | o :: t =>
          rw [probOf_cons]
          simp only [List.length_cons]
          rw [Fin.prod_univ_succ]
          simp only [List.get_cons_succ, List.getD_cons_succ, Fin.val_succ,
            List.get_cons_zero, List.getD_cons_zero, Fin.val_zero]
          rw [ih t (by simpa using hlen)]
          exact congrArg (fun z => p.getD o 0 / p.sum * z)
            (Finset.prod_congr rfl fun x _ => rfl)

/-- C6: For every multi-dimensional DiscreteDistribution and every vector
observation within its support, `Probability(observation)` equals the product
over dimensions of the per-dimension categorical probability of that
dimension's symbol (each stored vector normalized by its own sum), with the
number of dimensions fixed at construction; at the concrete distribution of
`MultiDiscreteDistributionTrainTest`, the values required by the test result
exactly. -/
theorem DiscreteDistribution.Probability_factorizes :
    (∀ (dd : DiscreteDistribution) (obs : List ℕ),
       obs.length = dd.Dimensionality →
       (∀ d : Fin dd.probabilities.length,
         obs.getD (d : ℕ) 0 < (dd.probabilities.get d).length) →
       dd.Probability obs
         = ∏ d : Fin dd.probabilities.length,
             ((dd.probabilities.get d).getD (obs.getD (d : ℕ) 0) 0)
               / (dd.probabilities.get d).sum)
    ∧ DiscreteDistribution.mdTestDist.Probability [0, 0, 0] = 1/120
    ∧ DiscreteDistribution.mdTestDist.Probability [0, 1, 2] = 1/60
    ∧ DiscreteDistribution.mdTestDist.Probability [2, 1, 0] = 1/20
    ∧ DiscreteDistribution.mdTestDist.Dimensionality = 3 := by
  refine ⟨fun dd obs hlen _ => probOf_eq_finProd dd.probabilities obs hlen,
    ?_, ?_, ?_, rfl⟩ <;>
  norm_num [DiscreteDistribution.Probability, DiscreteDistribution.probOf,
    DiscreteDistribution.mdTestDist]

/-- C6 witness: the factorization theorem applied to the concrete
three-dimensional test distribution and the in-support observation
`[0, 1, 2]`. -/
theorem DiscreteDistribution.Probability_factorizes_witness :
    DiscreteDistribution.mdTestDist.Probability [0, 1, 2]
      = ∏ d : Fin DiscreteDistribution.mdTestDist.probabilities.length,
          ((DiscreteDistribution.mdTestDist.probabilities.get d).getD
              ([0, 1, 2].getD (d : ℕ) 0) 0)
            / (DiscreteDistribution.mdTestDist.probabilities.get d).sum :=
  DiscreteDistribution.Probability_factorizes.1
    DiscreteDistribution.mdTestDist [0, 1, 2] (by decide)
    (by decide)

/-- C7 counterexample: a DiscreteDistribution whose single stored
per-dimension vector is all zero (reachable through the `Probabilities()`
setter) has support probabilities summing to 0, not 1. -/
theorem DiscreteDistribution.supportSum_zeroDist_ne_one :
    DiscreteDistribution.zeroDist.supportSum ≠ 1 := by
  norm_num [DiscreteDistribution.supportSum, DiscreteDistribution.support,
    DiscreteDistribution.Probability, DiscreteDistribution.probOf,
    DiscreteDistribution.zeroDist, List.range_succ]

/-- C7 (amended): for every DiscreteDistribution each of whose stored
per-dimension probability vectors has nonzero sum (they need not sum to 1),
summing `Probability` over every observation in the full support yields
exactly 1. -/
theorem DiscreteDistribution.supportSum_eq_one (dd : DiscreteDistribution)
    (h : ∀ p ∈ dd.probabilities, p.sum ≠ 0) :
    dd.supportSum = 1 :=
  probOf_support_sum dd.probabilities h

/-- C7 witness: the amended theorem applied to the concrete test
distribution whose second stored vector sums to 0.9, not 1. -/
theorem DiscreteDistribution.supportSum_eq_one_witness :
    DiscreteDistribution.mdTestDist.supportSum = 1 :=
  DiscreteDistribution.supportSum_eq_one DiscreteDistribution.mdTestDist
    (by intro p hp
        simp only [DiscreteDistribution.mdTestDist, List.mem_cons,
          List.not_mem_nil, or_false] at hp
        rcases hp with h | h | h <;> subst h <;> norm_num)

/-- C8: a DiscreteDistribution constructed with 5 outcomes, before any
training, reports Probability exactly 0.2 for each of the symbols
"0", "1", "2", "3", "4". -/
theorem DiscreteDistribution.ofNumObservations_five_uniform :
    (DiscreteDistribution.ofNumObservations 5).Probability [0] = 0.2
    ∧ (DiscreteDistribution.ofNumObservations 5).Probability [1] = 0.2
    ∧ (DiscreteDistribution.ofNumObservations 5).Probability [2] = 0.2
    ∧ (DiscreteDistribution.ofNumObservations 5).Probability [3] = 0.2
    ∧ (DiscreteDistribution.ofNumObservations 5).Probability [4] = 0.2 := by
  refine ⟨?_, ?_, ?_, ?_, ?_⟩ <;>
  norm_num [DiscreteDistribution.Probability, DiscreteDistribution.probOf,
    DiscreteDistribution.ofNumObservations, List.replicate]

/-- C2: For every input matrix with batch columns, the Linear layer's
`Forward(input, output)` sets `output = weight * input` with the bias vector
added to every column of the result: entrywise,
`output(r, c) = Σ_k weight(r, k) * input(k, c) + bias(r)`. -/
theorem LinearType.Forward_affine {o i b : ℕ}
    (weight : Matrix (Fin o) (Fin i) ℚ) (bias : Fin o → ℚ)
    (input : Matrix (Fin i) (Fin b) ℚ) (r : Fin o) (c : Fin b) :
    LinearType.Forward weight bias input r c
      = (∑ k, weight r k * input k c) + bias r := by
  simp [LinearType.Forward, LinearType.eachColAdd, Matrix.mul_apply]

/-- C3: For every output-gradient matrix `gy`, the Linear layer's
`Backward(input, gy, g)` sets the input gradient `g` to the transpose of the
weight matrix times `gy`: entrywise, `g(r, c) = Σ_k weight(k, r) * gy(k, c)`. -/
theorem LinearType.Backward_transpose {o i b : ℕ}
    (weight : Matrix (Fin o) (Fin i) ℚ)
    (gy : Matrix (Fin o) (Fin b) ℚ) (r : Fin i) (c : Fin b) :
    LinearType.Backward weight gy
      = weight.transpose * gy
    ∧ LinearType.Backward weight gy r c = ∑ k, weight k r * gy k c := by
  constructor
  · rfl
  · simp [LinearType.Backward, Matrix.mul_apply, Matrix.transpose_apply]

lemma sum_ones_fin (N : ℕ) : (∑ _s : Fin N, (1 : ℚ)) = N := by
  simp

/-- C1: for every data matrix, training with the all-ones weight vector
yields exactly the same parameters as unweighted training, for the Gaussian
(mean and covariance), diagonal-Gaussian (mean and per-dimension variance)
and Gamma (statistics handed to the fixed solver, for every solver `fit` and
elementwise log `lg`) distributions. -/
theorem weightedTrain_allOnes_eq_unweighted {d N : ℕ}
    (data : Matrix (Fin d) (Fin N) ℚ) (fit : ℚ → ℚ → ℚ → ℚ × ℚ)
    (lg : ℚ → ℚ) :
    GaussianDistribution.TrainW data (fun _ => 1)
        = GaussianDistribution.Train data
    ∧ DiagonalGaussianDistribution.TrainW data (fun _ => 1)
        = DiagonalGaussianDistribution.Train data
    ∧ GammaDistribution.TrainW fit lg data (fun _ => 1)
        = GammaDistribution.Train fit lg data := by
  have h1 := sum_ones_fin N
  have hden : ((∑ _s : Fin N, (1 : ℚ))
      - (∑ _s : Fin N, (1 : ℚ) * 1) / (∑ _s : Fin N, (1 : ℚ)))
      = if (N : ℚ) = 0 then 0 else (N : ℚ) - 1 := by
    rcases eq_or_ne (N : ℚ) 0 with hN | hN
    · simp [h1, hN]
    · simp only [mul_one, h1, div_self hN, if_neg hN]
  have hmean : GaussianDistribution.TrainWMean data (fun _ => 1)
      = GaussianDistribution.TrainMean data := by
    funext j
    simp [GaussianDistribution.TrainWMean, GaussianDistribution.TrainMean, h1]
  refine ⟨?_, ?_, ?_⟩
  · refine Prod.ext hmean ?_
    show GaussianDistribution.TrainWCovariance data (fun _ => 1)
      = GaussianDistribution.TrainCovariance data
    ext j k
    simp only [GaussianDistribution.TrainWCovariance,
      GaussianDistribution.TrainCovariance, Matrix.of_apply, hmean, one_mul,
      hden]
    rcases eq_or_ne (N : ℚ) 0 with hN | hN
    · have hN0 : N = 0 := by exact_mod_cast hN
      subst hN0
      simp
    · simp [hN]
  · refine Prod.ext ?_ ?_
    · funext j
      simp [DiagonalGaussianDistribution.TrainW,
        DiagonalGaussianDistribution.Train, h1]
    · funext j
      simp only [DiagonalGaussianDistribution.TrainW,
        DiagonalGaussianDistribution.Train, one_mul, h1, hden]
      rcases eq_or_ne (N : ℚ) 0 with hN | hN
      · have hN0 : N = 0 := by exact_mod_cast hN
        subst hN0
        simp
      · simp [hN]
  · funext j
    simp [GammaDistribution.TrainW, GammaDistribution.Train, h1]

/-- C5: in the AdaBoost probability-prediction binding, a test matrix whose
row count differs from the model's trained dimensionality causes a fatal
error with nothing further executed (no classification, no probabilities
output); when the dimensionalities match, classification runs and the
probabilities output parameter is set to its result. -/
theorem AdaBoostBinding.dimensionality_check
    (m : AdaBoostBinding.AdaBoostModel) (test : ArmaMat) :
    (test.nRows ≠ m.Dimensionality →
      AdaBoostBinding.BINDING_FUNCTION m test
        = Except.error AdaBoostBinding.fatalMessage)
    ∧ (test.nRows = m.Dimensionality →
      AdaBoostBinding.BINDING_FUNCTION m test
        = Except.ok (m.Classify test)) := by
  constructor
  · intro h
    simp [AdaBoostBinding.BINDING_FUNCTION, h]
  · intro h
    simp [AdaBoostBinding.BINDING_FUNCTION, h]

/-- C5 witness: the check applied to a concrete model of dimensionality 2,
once with a 3-row test matrix (fatal error) and once with a 2-row test
matrix (classification result returned). -/
theorem AdaBoostBinding.dimensionality_check_witness :
    AdaBoostBinding.BINDING_FUNCTION AdaBoostBinding.exampleModel
        AdaBoostBinding.badTest
      = Except.error AdaBoostBinding.fatalMessage
    ∧ AdaBoostBinding.BINDING_FUNCTION AdaBoostBinding.exampleModel
        AdaBoostBinding.goodTest
      = Except.ok (AdaBoostBinding.exampleModel.Classify
          AdaBoostBinding.goodTest) :=
  ⟨(AdaBoostBinding.dimensionality_check AdaBoostBinding.exampleModel
      AdaBoostBinding.badTest).1 (by decide),
   (AdaBoostBinding.dimensionality_check AdaBoostBinding.exampleModel
      AdaBoostBinding.goodTest).2 (by decide)⟩

lemma concatHeads_nCols (f : ℕ → ArmaMat) (n : ℕ) :
    (MultiheadAttention.concatHeads f n).nCols = (f 0).nCols := by
  induction n with
  | zero => rfl
  | succ n ih =>
      simpa [MultiheadAttention.concatHeads, MultiheadAttention.vconcat]
        using ih

/-- C9: for every input block of `embedDim * (tLen + 2*sLen)` rows by `bsz`
columns (and output-projection matrix of `embedDim` rows, as `SetWeights`
installs), the MultiheadAttention layer's Forward produces an output with
`embedDim * tLen` rows and `bsz` columns, the row count arising from the
output projection applied to the concatenated per-head attention outputs. -/
theorem MultiheadAttention.Forward_outputShape
    (embedDim numHeads tLen sLen bsz : ℕ) (scale : ℚ) (ex : ℚ → ℚ)
    (ps : MultiheadAttention.MHAParams) (attnMask keyPaddingMask : ArmaMat)
    (input : ArmaMat)
    (hrows : input.nRows = embedDim * (tLen + 2 * sLen))
    (hcols : input.nCols = bsz)
    (hwo : ps.wo.nRows = embedDim) :
    (MultiheadAttention.Forward embedDim numHeads tLen sLen scale ex ps
        attnMask keyPaddingMask input).nRows = embedDim * tLen
    ∧ (MultiheadAttention.Forward embedDim numHeads tLen sLen scale ex ps
        attnMask keyPaddingMask input).nCols = bsz := by
  constructor
  · simp [MultiheadAttention.Forward, MultiheadAttention.eachColAddVec,
      MultiheadAttention.mulMat, concatHeads_nCols,
      MultiheadAttention.headSlice, MultiheadAttention.submatRows,
      MultiheadAttention.rowSoftmax, MultiheadAttention.addRowBroadcast,
      MultiheadAttention.addMat, MultiheadAttention.scaleMat,
      MultiheadAttention.transposeMat, MultiheadAttention.colSegment,
      hwo]
  · simp [MultiheadAttention.Forward, hcols]

/-- C9 witness: the shape theorem at the concrete configuration of
`SimpleMultiheadAttentionTest` (`embedDim = 4`, `numHeads = 2`,
`tLen = sLen = 5`, `bsz = 3`): the output is `20 × 3`. -/
theorem MultiheadAttention.Forward_outputShape_witness :
    (MultiheadAttention.Forward 4 2 5 5 1 id MultiheadAttention.exampleParams
        MultiheadAttention.exampleMask MultiheadAttention.examplePadMask
        MultiheadAttention.exampleInput).nRows = 4 * 5
    ∧ (MultiheadAttention.Forward 4 2 5 5 1 id
        MultiheadAttention.exampleParams MultiheadAttention.exampleMask
        MultiheadAttention.examplePadMask
        MultiheadAttention.exampleInput).nCols = 3 :=
  MultiheadAttention.Forward_outputShape 4 2 5 5 3 1 id
    MultiheadAttention.exampleParams MultiheadAttention.exampleMask
    MultiheadAttention.examplePadMask MultiheadAttention.exampleInput
    rfl rfl rfl
